import Mathlib

/-!
Verification of the mongodb-nodejs-sdk data-access layer.

This file shallowly embeds the two source modules of the repository
(the legacy function module and the DBConnection class in src/utils.js)
and proves or refutes the frozen claims about the keyset cursor paginator
(workOnItPageByPage), the single-pass batch fetcher
(processABatchOfDocuments), the bulk write engines (bulkCreate,
bulkUpdate) and the uniform result envelope.

Modelling conventions:
- JS values appearing in documents, queries and driver responses are the
  inductive type Value; undefined/null is vNull.
- A JS object is an association list, Doc; property read and property
  assignment are Doc.get and Doc.set (assignment replaces the first
  occurrence of the key or appends, preserving insertion order, as JS
  object assignment does).
- The mongo driver is external to the repository.  Its
  find(query).sort(by id ascending).limit(n).toArray() pipeline is modelled by
  fetchSorted: filter by the query predicates, sort ascending by the
  numeric value of the primary key, and take n documents (a limit of 0
  means no limit, as the driver documents).  Driver calls that can fail
  are modelled as Except String results, the String being err.message.
- Promises: a fulfilled promise is an ordinary value, a rejected promise
  is the rejected constructor of the relevant outcome type.
-/

/-- A JS runtime value as used by the SDK: null/undefined, booleans,
numbers (document primary keys are modelled as naturals), strings,
ObjectID instances and the one-key object written as a $gt predicate.
vObjIdFresh models new ObjectID(undefined) - the constructor generates a
fresh identifier when its argument is absent - and vObjIdOf v models
new ObjectID(v) for a present argument v. -/
inductive Value where
  | vNull : Value
  | vBool : Bool → Value
  | vNat : Nat → Value
  | vStr : String → Value
  | vObjIdFresh : Value
  | vObjIdOf : Value → Value
  | vGt : Value → Value
  deriving DecidableEq

/-- A JS object: an insertion-ordered association list from property
names to values.  Documents, queries and projections all have this shape. -/
abbrev Doc := List (String × Value)

/-- Property read, obj[k]: the value at the first occurrence of the key. -/
def Doc.get : Doc → String → Option Value
  | [], _ => none
  | (k2, v2) :: rest, k => if k2 = k then some v2 else Doc.get rest k

/-- Property assignment, obj[k] = v: replaces the first occurrence of the
key, or appends the pair when the key is absent. -/
def Doc.set : Doc → String → Value → Doc
  | [], k, v => [(k, v)]
  | (k2, v2) :: rest, k, v =>
    if k2 = k then (k, v) :: rest else (k2, v2) :: Doc.set rest k v

/-- The numeric value of a document's primary key _id; 0 when the key is
absent or not numeric (the claims only quantify over documents whose _id
is a numeric key, via hasNatId). -/
def idNat (d : Doc) : Nat :=
  match Doc.get d "_id" with
  | some (.vNat n) => n
  | _ => 0

/-- Boolean check that a document carries a numeric primary key. -/
def hasNatId (d : Doc) : Bool :=
  match Doc.get d "_id" with
  | some (.vNat _) => true
  | _ => false

/-- Boolean check that every document of a collection carries a numeric
primary key. -/
def allNatIds (coll : List Doc) : Bool :=
  coll.all hasNatId

/-- Boolean check that a collection is strictly ascending by primary key
(adjacent comparison; with transitivity this gives full pairwise order). -/
def strictlySortedById : List Doc → Bool
  | [] => true
  | [_] => true
  | a :: b :: rest => idNat a < idNat b && strictlySortedById (b :: rest)

/-- The driver's ordering on values used by the $gt comparison: only
numeric keys compare; anything else is never less-than (the claims only
exercise numeric keys). -/
def Value.ltb : Value → Value → Bool
  | .vNat a, .vNat b => decide (a < b)
  | _, _ => false

/-- One field predicate of a mongo query: a vGt value demands the
document field strictly exceed the bound, any other value demands
equality.  (The driver's null-matching subtleties are not modelled; no
claim exercises them.) -/
def matchesField (d : Doc) (k : String) (p : Value) : Bool :=
  match p with
  | .vGt bound =>
    match Doc.get d k with
    | some w => Value.ltb bound w
    | none => false
  | other => decide (Doc.get d k = some other)

/-- A document matches a query when it satisfies every field predicate
of the query object. -/
def matchesQuery (d : Doc) (q : Doc) : Bool :=
  q.all fun kv => matchesField d kv.fst kv.snd

/-- Insertion step of the ascending-by-_id sort used to model the
driver's sort on the primary key. -/
def insertById (d : Doc) : List Doc → List Doc
  | [] => [d]
  | e :: es => if idNat d ≤ idNat e then d :: e :: es else e :: insertById d es

/-- Ascending-by-_id sort modelling the driver's sort on the primary key. -/
def sortById : List Doc → List Doc
  | [] => []
  | d :: ds => insertById d (sortById ds)

/-- The driver pipeline find(query).sort(ascending by _id).limit(n).toArray()
shared by workOnItPageByPage (src/utils.js lines 208-213 and 707-712) and
processABatchOfDocuments (lines 417-421 and 881-885): documents matching
the query, ascending by primary key, truncated to the limit (a limit of 0
means no limit, per the driver). -/
def fetchSorted (coll : List Doc) (q : Doc) (limit : Nat) : List Doc :=
  let sorted := sortById (coll.filter fun d => matchesQuery d q)
  if limit = 0 then sorted else sorted.take limit

/-- A store oracle: what one awaited fetch of a window returns for a given
query and limit.  Except.error models a driver rejection with err.message. -/
abbrev Store := Doc → Nat → Except String (List Doc)

/-- The store backed by a fixed collection whose fetches always succeed. -/
def pureStore (coll : List Doc) : Store :=
  fun q limit => Except.ok (fetchSorted coll q limit)

/-- The uniform result envelope of the DBConnection class
(src/utils.js lines 473-481): status plus the optional resp and text
properties; an Option field is none exactly when the property is absent
from the returned object literal. -/
structure Envelope where
  status : Bool
  resp : Option Value
  text : Option String
  deriving DecidableEq

/-- The terminal envelope DBConnection.workOnItPageByPage returns when a
fetched window is empty (src/utils.js lines 714-718). -/
def noDocsEnvelope : Envelope :=
  { status := false, resp := none, text := some "no documents found" }

/-- What the promise returned by DBConnection.workOnItPageByPage settles
to: the terminal envelope on an empty window, the last handler's result on
a partial window, a rejection when the unguarded fetch or a handler
rejects, or outOfFuel (never reached at adequate fuel). -/
inductive PageOutcome (ρ : Type) where
  | terminal : Envelope → PageOutcome ρ
  | handled : ρ → PageOutcome ρ
  | rejected : String → PageOutcome ρ
  | outOfFuel : PageOutcome ρ
  deriving DecidableEq

/-- Observable trace of one paginator call chain: the windows the handler
was invoked on in call order, the number of awaited fetches, the contents
of the caller's query object when the chain settles (the code assigns
query._id in place, so the caller sees this object), and the settled
outcome. -/
structure PageTrace (ρ : Type) where
  windows : List (List Doc)
  fetches : Nat
  finalQuery : Doc
  outcome : PageOutcome ρ
  deriving DecidableEq

/-- The JS expression documents[documents.length - 1]['_id']: the _id of
the last document of the window, vNull (undefined) when the window is
empty or the key absent. -/
def windowLastKey (w : List Doc) : Value :=
  match w.getLast? with
  | some d => (Doc.get d "_id").getD .vNull
  | none => .vNull

/-- Recursion of DBConnection.workOnItPageByPage (src/utils.js lines
707-730), fuel-indexed to express the unbounded JS recursion.  One step:
await the fetch (a rejection propagates - there is no try/catch around
it); an empty window settles with the noDocsEnvelope terminal; a partial
window (length < pageSize) invokes the handler once and settles with its
result verbatim; a full window invokes the handler, and on its success
assigns query._id = the $gt predicate past the window's last key in place
and recurses on the same (mutated) query object. -/
def pageGo {ρ : Type} (store : Store) (handler : List Doc → Except String ρ)
    (pageSize : Nat) : Nat → Doc → PageTrace ρ
  | 0, q => ⟨[], 0, q, .outOfFuel⟩
  | fuel + 1, q =>
    match store q pageSize with
    | .error msg => ⟨[], 1, q, .rejected msg⟩
    | .ok documents =>
      if documents.length < 1 then
        ⟨[], 1, q, .terminal noDocsEnvelope⟩
      else if documents.length < pageSize then
        match handler documents with
        | .ok r => ⟨[documents], 1, q, .handled r⟩
        | .error m => ⟨[documents], 1, q, .rejected m⟩
      else
        match handler documents with
        | .error m => ⟨[documents], 1, q, .rejected m⟩
        | .ok _ =>
          let lastId := windowLastKey documents
          let q2 := Doc.set q "_id" (.vGt lastId)
          let t := pageGo store handler pageSize fuel q2
          ⟨documents :: t.windows, t.fetches + 1, t.finalQuery, t.outcome⟩

/-- DBConnection.workOnItPageByPage (src/utils.js lines 704-730; the
legacy function at lines 205-234 is structurally identical except that its
empty-window result is a bare resolved promise).  Line 705 reassigns the
projection parameter (to true when the argument is truthy, else to the
object selecting _id) but the .project call on line 710 is commented out,
so the projection never reaches the driver; processPageArgs are absorbed
into the handler. -/
def workOnItPageByPage {ρ : Type} (store : Store) (q : Doc)
    (projection : Option Doc) (pageSize : Nat)
    (handler : List Doc → Except String ρ) (fuel : Nat) : PageTrace ρ :=
  pageGo store handler pageSize fuel q

/-- What the promise returned by processABatchOfDocuments settles to:
the sentinel Promise.resolve(false) on an empty window, the handler's
result verbatim otherwise, or the catch-branch envelope of the
DBConnection variant when the fetch fails. -/
inductive BatchOutcome (ρ : Type) where
  | sentinelFalse : BatchOutcome ρ
  | handled : ρ → BatchOutcome ρ
  | caught : Envelope → BatchOutcome ρ
  deriving DecidableEq

/-- Observable trace of one processABatchOfDocuments call: fetch count,
the caller's query object when the call settles, and the outcome. -/
structure BatchTrace (ρ : Type) where
  fetches : Nat
  finalQuery : Doc
  outcome : BatchOutcome ρ
  deriving DecidableEq

/-- DBConnection.processABatchOfDocuments (src/utils.js lines 878-896;
the legacy function at lines 415-430 differs only in rethrowing instead
of the catch envelope): one awaited fetch, no query mutation, no
recursion; an empty window resolves with false, otherwise the handler's
result is returned verbatim. -/
def processABatchOfDocuments {ρ : Type} (store : Store) (q : Doc)
    (batchSize : Nat) (handler : List Doc → ρ) : BatchTrace ρ :=
  match store q batchSize with
  | .error m => ⟨1, q, .caught { status := false, resp := none, text := some m }⟩
  | .ok documents =>
    if documents.length < 1 then ⟨1, q, .sentinelFalse⟩
    else ⟨1, q, .handled (handler documents)⟩

/-- One operation queued by bulkUpdate:
batch.find(the filter on _id).updateOne(the $set document).
filterId is the ObjectID the filter compares _id against, setDoc the
object placed under $set. -/
structure QueuedUpdate where
  filterId : Value
  setDoc : Doc
  deriving DecidableEq

/-- lodash _.omit(obj, path) for a single string path containing neither
dots nor brackets: drops every property whose name equals the path
(a comma-joined string such as "a,b" is one path naming the literal
key "a,b", not two keys - lodash does not split on commas). -/
def lodashOmit (d : Doc) (path : String) : Doc :=
  d.filter fun kv => kv.fst ≠ path

/-- JS Array.prototype.toString: the comma-joined elements. -/
def jsArrayToString (xs : List String) : String :=
  String.intercalate "," xs

/-- The per-payload constructor new ObjectID(x): fresh when x is absent. -/
def objectId : Option Value → Value
  | none => .vObjIdFresh
  | some v => .vObjIdOf v

/-- The queue built by the bulkUpdate loop (src/utils.js lines 783-788,
legacy lines 288-293): for each payload, when the omits argument is
truthy the payload is reduced by _.omit(payload, omits.toString()), then
the queued operation's $set document is the reduced payload and its
filter compares _id against new ObjectID(reducedPayload._id) - the _id
read happens after the omission. -/
def bulkUpdateQueue (updates : List Doc) (omits : Option (List String)) :
    List QueuedUpdate :=
  updates.map fun u =>
    let update := match omits with
      | some os => lodashOmit u (jsArrayToString os)
      | none => u
    { filterId := objectId (Doc.get update "_id"), setDoc := update }

/-- DBConnection.bulkCreate (src/utils.js lines 738-764): empty or absent
input short-circuits before the batch is initialized; otherwise the batch
is initialized, the inserts queued, and one execute round trip is issued,
its response or error wrapped in an envelope.  Result: whether a batch
was initialized, the number of execute round trips, and the envelope. -/
def bulkCreateDb (documents : Option (List Doc))
    (driver : Except String Value) : Bool × Nat × Envelope :=
  match documents with
  | none => (false, 0, { status := true, resp := none, text := some "No documents to insert" })
  | some docs =>
    if docs.length = 0 then
      (false, 0, { status := true, resp := none, text := some "No documents to insert" })
    else
      match driver with
      | .ok v => (true, 1, { status := true, resp := some v, text := none })
      | .error m => (true, 1, { status := false, resp := none, text := some m })

/-- DBConnection.bulkUpdate (src/utils.js lines 773-802): empty or absent
input short-circuits before the batch is initialized; otherwise the queue
of bulkUpdateQueue is built and one execute round trip issued.  Result:
whether a batch was initialized, the round trips, the queued operations,
and the envelope. -/
def bulkUpdateDb (updates : Option (List Doc)) (omits : Option (List String))
    (driver : Except String Value) : Bool × Nat × List QueuedUpdate × Envelope :=
  match updates with
  | none => (false, 0, [], { status := true, resp := none, text := some "No updates found" })
  | some us =>
    if us.length = 0 then
      (false, 0, [], { status := true, resp := none, text := some "No updates found" })
    else
      let queue := bulkUpdateQueue us omits
      match driver with
      | .ok v => (true, 1, queue, { status := true, resp := some v, text := none })
      | .error m => (true, 1, queue, { status := false, resp := none, text := some m })

/-- Legacy bulkCreate (src/utils.js lines 262-273): empty or absent input
returns Promise.resolve() - the promise resolves with undefined (vNull),
no envelope and no marker - before the batch is initialized; otherwise
one execute round trip whose driver response or rejection is returned
verbatim. -/
def bulkCreateLegacy (documents : Option (List Doc))
    (driver : Except String Value) : Bool × Nat × Except String Value :=
  match documents with
  | none => (false, 0, .ok .vNull)
  | some docs =>
    if docs.length = 0 then (false, 0, .ok .vNull)
    else (true, 1, driver)

/-- Legacy bulkUpdate (src/utils.js lines 283-296): same short-circuit
shape as the legacy bulkCreate, with the bulkUpdateQueue queue built on
the non-empty path. -/
def bulkUpdateLegacy (updates : Option (List Doc)) (omits : Option (List String))
    (driver : Except String Value) : Bool × Nat × List QueuedUpdate × Except String Value :=
  match updates with
  | none => (false, 0, [], .ok .vNull)
  | some us =>
    if us.length = 0 then (false, 0, [], .ok .vNull)
    else (true, 1, bulkUpdateQueue us omits, driver)

/-- Outcome of one awaited driver call inside a DBConnection method. -/
inductive DriverOutcome where
  | ok : Value → DriverOutcome
  | fail : String → DriverOutcome
  deriving DecidableEq

/-- One envelope-producing return site of the DBConnection class
(src/utils.js lines 483-921), indexed by the operation and the inputs
that select the return path.  initConn is the static initialize method. -/
inductive OpCall where
  | initConn : DriverOutcome → OpCall
  | insertIntoDb : List Doc → DriverOutcome → OpCall
  | updateDocument : DriverOutcome → OpCall
  | upsertDocument : DriverOutcome → OpCall
  | findOneDocumentBasedOnQuery : DriverOutcome → OpCall
  | findDocumentsBasedOnQuery : DriverOutcome → OpCall
  | countDocumentsByQuery : DriverOutcome → OpCall
  | workOnItPageByPageEmpty : OpCall
  | bulkCreate : List Doc → DriverOutcome → OpCall
  | bulkUpdate : List Doc → DriverOutcome → OpCall
  | insertOne : Option Doc → DriverOutcome → OpCall
  | dropCollection : DriverOutcome → OpCall
  | findDistinctDocuments : DriverOutcome → OpCall
  | processABatchOfDocumentsErr : String → OpCall
  | bulkUpdateByQuery : DriverOutcome → OpCall
  deriving DecidableEq

/-- The standard success and failure envelopes shared by the try/catch
bodies of the DBConnection methods. -/
def stdEnvelope : DriverOutcome → Envelope
  | .ok v => { status := true, resp := some v, text := none }
  | .fail m => { status := false, resp := none, text := some m }

/-- The envelope each return site of the DBConnection class produces,
transcribed from src/utils.js lines 483-921: initialize returns the bare
status-true object on success (line 514-516) and a status-false text
envelope on error; insertIntoDb, bulkCreate and bulkUpdate short-circuit
empty input to status-true informational envelopes; insertOne
short-circuits an absent document to a status-false text envelope
(line 810-815); workOnItPageByPage's empty window returns the
noDocsEnvelope; every wrapped driver call produces the standard success
or failure envelope. -/
def envelopeOf : OpCall → Envelope
  | .initConn (.ok _) => { status := true, resp := none, text := none }
  | .initConn (.fail m) => { status := false, resp := none, text := some m }
  | .insertIntoDb docs d =>
    if docs.length < 1 then
      { status := true, resp := none, text := some "No documents found to insert" }
    else stdEnvelope d
  | .updateDocument d => stdEnvelope d
  | .upsertDocument d => stdEnvelope d
  | .findOneDocumentBasedOnQuery d => stdEnvelope d
  | .findDocumentsBasedOnQuery d => stdEnvelope d
  | .countDocumentsByQuery d => stdEnvelope d
  | .workOnItPageByPageEmpty => noDocsEnvelope
  | .bulkCreate docs d =>
    if docs.length = 0 then
      { status := true, resp := none, text := some "No documents to insert" }
    else stdEnvelope d
  | .bulkUpdate us d =>
    if us.length = 0 then
      { status := true, resp := none, text := some "No updates found" }
    else stdEnvelope d
  | .insertOne none _ =>
    { status := false, resp := none, text := some "No documents found to insert" }
  | .insertOne (some _) d => stdEnvelope d
  | .dropCollection d => stdEnvelope d
  | .findDistinctDocuments d => stdEnvelope d
  | .processABatchOfDocumentsErr m => { status := false, resp := none, text := some m }
  | .bulkUpdateByQuery d => stdEnvelope d

/-- The return site that is the successful initialize call. -/
def isInitOk : OpCall → Bool
  | .initConn (.ok _) => true
  | _ => false

/-- A settled JS promise: fulfilled with a value or rejected with an
error message. -/
inductive JsPromise (α : Type) where
  | fulfilled : α → JsPromise α
  | rejected : String → JsPromise α
  deriving DecidableEq

/-- The catchErrors handler of every legacy utils.js function
(for example insertIntoDb, lines 24-29): it closes the connection handle
and rethrows, so a driver error reaches the caller as a rejection, never
as an envelope. -/
def legacyCatchErrors (r : Except String Value) : JsPromise Value :=
  match r with
  | .ok v => .fulfilled v
  | .error m => .rejected m

/-- The windows of a list in order: successive take/drop groups of the
given page size, fuel-indexed by the list length. -/
def chunksGo (p : Nat) : Nat → List Doc → List (List Doc)
  | 0, _ => []
  | _, [] => []
  | fuel + 1, l => l.take p :: chunksGo p fuel (l.drop p)

/-- The windows of a list in order, page size p. -/
def chunksOf (p : Nat) (l : List Doc) : List (List Doc) :=
  chunksGo p l.length l

/-- The query object holding only the $gt predicate the paginator writes. -/
def gtQuery (k : Nat) : Doc :=
  [("_id", Value.vGt (Value.vNat k))]

/-- The documents of the collection still ahead of an optional key bound. -/
def remAfter (coll : List Doc) : Option Nat → List Doc
  | none => coll
  | some k => coll.filter fun d => decide (k < idNat d)

/-- The query state of the paginator: nothing before the first advance,
then exactly the overwritten $gt predicate. -/
def boundQuery : Option Nat → Doc
  | none => []
  | some k => gtQuery k

/-- The numeric key of the last document of a window (0 when empty;
claims only use it on nonempty windows of numeric-keyed documents). -/
def lastIdNatOf (w : List Doc) : Nat :=
  match w.getLast? with
  | some d => idNat d
  | none => 0

/-! ### Basic lemmas about the object model -/

theorem Doc.get_set_self (d : Doc) (k : String) (v : Value) :
    Doc.get (Doc.set d k v) k = some v := by
  induction d with
  | nil => simp [Doc.set, Doc.get]
  | cons kv rest ih =>
    obtain ⟨k2, v2⟩ := kv
    by_cases hk : k2 = k
    · simp [Doc.set, hk, Doc.get]
    · simp [Doc.set, hk, Doc.get, ih]

theorem hasNatId_get {d : Doc} (h : hasNatId d = true) :
    Doc.get d "_id" = some (.vNat (idNat d)) := by
  unfold hasNatId at h
  unfold idNat
  rcases hg : Doc.get d "_id" with _ | v
  · rw [hg] at h; simp at h
  · rw [hg] at h
    cases v <;> simp_all

theorem allNatIds_mem {coll : List Doc} (h : allNatIds coll = true)
    {d : Doc} (hd : d ∈ coll) : hasNatId d = true := by
  unfold allNatIds at h
  exact List.all_eq_true.mp h d hd

theorem strictlySorted_destruct :
    ∀ (l : List Doc) (a : Doc), strictlySortedById (a :: l) = true →
      strictlySortedById l = true ∧ ∀ d ∈ l, idNat a < idNat d := by
  intro l
  induction l with
  | nil => intro a _; exact ⟨rfl, by simp⟩
  | cons b rest ih =>
    intro a h
    unfold strictlySortedById at h
    rw [Bool.and_eq_true, decide_eq_true_eq] at h
    obtain ⟨hab, htail⟩ := h
    obtain ⟨hrest, hblt⟩ := ih b htail
    refine ⟨htail, ?_⟩
    intro d hd
    rcases List.mem_cons.mp hd with rfl | hd2
    · exact hab
    · exact Nat.lt_trans hab (hblt d hd2)

theorem strictlySorted_pairwise :
    ∀ {l : List Doc}, strictlySortedById l = true →
      l.Pairwise (fun a b => idNat a < idNat b) := by
  intro l
  induction l with
  | nil => intro _; exact List.Pairwise.nil
  | cons a rest ih =>
    intro h
    obtain ⟨hrest, hlt⟩ := strictlySorted_destruct rest a h
    exact List.pairwise_cons.mpr ⟨hlt, ih hrest⟩

theorem mem_insertById {a d : Doc} :
    ∀ {l : List Doc}, a ∈ insertById d l ↔ a = d ∨ a ∈ l := by
  intro l
  induction l with
  | nil => simp [insertById]
  | cons e es ih =>
    by_cases hle : idNat d ≤ idNat e
    · simp [insertById, hle]
    · simp only [insertById, if_neg hle, List.mem_cons, ih]
      tauto

theorem mem_sortById {a : Doc} : ∀ {l : List Doc}, a ∈ sortById l ↔ a ∈ l := by
  intro l
  induction l with
  | nil => simp [sortById]
  | cons d ds ih => simp [sortById, mem_insertById, ih]

theorem sortById_of_pairwise :
    ∀ {l : List Doc}, l.Pairwise (fun a b => idNat a ≤ idNat b) →
      sortById l = l := by
  intro l
  induction l with
  | nil => intro _; rfl
  | cons d ds ih =>
    intro h
    obtain ⟨hd, hds⟩ := List.pairwise_cons.mp h
    unfold sortById
    rw [ih hds]
    cases ds with
    | nil => rfl
    | cons e es =>
      unfold insertById
      rw [if_pos (hd e (List.mem_cons_self e es))]

theorem mem_fetchSorted {coll : List Doc} {q : Doc} {n : Nat} {d : Doc}
    (h : d ∈ fetchSorted coll q n) : d ∈ coll := by
  unfold fetchSorted at h
  by_cases hn : n = 0
  · rw [if_pos hn] at h
    exact (List.filter_sublist coll).mem (mem_sortById.mp h)
  · rw [if_neg hn] at h
    exact (List.filter_sublist coll).mem (mem_sortById.mp (List.mem_of_mem_take h))

/-! ### The fetch of one window under the paginator's query states -/

theorem matchesQuery_nil (d : Doc) : matchesQuery d [] = true := rfl

theorem matchesQuery_gtQuery {d : Doc} (hd : hasNatId d = true) (k : Nat) :
    matchesQuery d (gtQuery k) = decide (k < idNat d) := by
  unfold matchesQuery gtQuery
  rw [List.all_cons, List.all_nil, Bool.and_true]
  show matchesField d "_id" (.vGt (.vNat k)) = _
  unfold matchesField
  rw [hasNatId_get hd]
  rfl

theorem pairwise_le_of_lt {l : List Doc}
    (h : l.Pairwise (fun a b => idNat a < idNat b)) :
    l.Pairwise (fun a b => idNat a ≤ idNat b) :=
  h.imp Nat.le_of_lt

theorem remAfter_pairwise {coll : List Doc}
    (h : coll.Pairwise (fun a b => idNat a < idNat b)) (b : Option Nat) :
    (remAfter coll b).Pairwise (fun a b => idNat a < idNat b) := by
  cases b with
  | none => exact h
  | some k => exact List.Pairwise.sublist (List.filter_sublist coll) h

theorem fetchSorted_bound {coll : List Doc} {p : Nat}
    (hA : allNatIds coll = true)
    (hS : coll.Pairwise (fun a b => idNat a < idNat b))
    (hp : 1 ≤ p) (b : Option Nat) :
    fetchSorted coll (boundQuery b) p = (remAfter coll b).take p := by
  have hp0 : p ≠ 0 := by omega
  unfold fetchSorted
  rw [if_neg hp0]
  have hfil : (coll.filter fun d => matchesQuery d (boundQuery b)) = remAfter coll b := by
    cases b with
    | none =>
      show (coll.filter fun d => matchesQuery d []) = coll
      rw [List.filter_eq_self]
      intro d _
      exact matchesQuery_nil d
    | some k =>
      show (coll.filter fun d => matchesQuery d (gtQuery k)) = _
      unfold remAfter
      exact List.filter_congr fun d hd =>
        matchesQuery_gtQuery (allNatIds_mem hA hd) k
  rw [hfil, sortById_of_pairwise (pairwise_le_of_lt (remAfter_pairwise hS b))]

/-! ### Advancing the cursor past a full window -/

theorem lastIdNatOf_mem {w : List Doc} (hne : w ≠ []) :
    ∃ dl ∈ w, idNat dl = lastIdNatOf w := by
  rcases hg : w.getLast? with _ | dl
  · exact absurd (List.getLast?_eq_none_iff.mp hg) hne
  · obtain ⟨ys, hys⟩ := List.getLast?_eq_some_iff.mp hg
    refine ⟨dl, ?_, ?_⟩
    · rw [hys]; simp
    · unfold lastIdNatOf; rw [hg]

theorem lastIdNatOf_cons {w : List Doc} (a : Doc) (hne : w ≠ []) :
    lastIdNatOf (a :: w) = lastIdNatOf w := by
  cases w with
  | nil => exact absurd rfl hne
  | cons b t => unfold lastIdNatOf; rw [List.getLast?_cons_cons]

theorem filter_lastId_drop :
    ∀ (p0 : Nat) (r : List Doc), p0 + 1 ≤ r.length →
      r.Pairwise (fun a b => idNat a < idNat b) →
      (r.filter fun d => decide (lastIdNatOf (r.take (p0 + 1)) < idNat d))
        = r.drop (p0 + 1) := by
  intro p0
  induction p0 with
  | zero =>
    intro r hlen hpair
    cases r with
    | nil => simp at hlen
    | cons a r2 =>
      obtain ⟨hhead, htail⟩ := List.pairwise_cons.mp hpair
      have htake : (a :: r2).take 1 = [a] := by simp
      rw [htake]
      have hlast : lastIdNatOf [a] = idNat a := by unfold lastIdNatOf; simp
      rw [hlast]
      rw [List.filter_cons]
      have hfalse : (decide (idNat a < idNat a)) = false := by simp
      rw [hfalse]
      simp only [Bool.false_eq_true, if_false]
      show List.filter (fun d => decide (idNat a < idNat d)) r2 = r2
      rw [List.filter_eq_self]
      intro d hd
      exact decide_eq_true (hhead d hd)
  | succ p1 ih =>
    intro r hlen hpair
    cases r with
    | nil => simp at hlen
    | cons a r2 =>
      obtain ⟨hhead, htail⟩ := List.pairwise_cons.mp hpair
      have hr2len : p1 + 1 ≤ r2.length := by
        simp only [List.length_cons] at hlen; omega
      have htkne : r2.take (p1 + 1) ≠ [] := by
        have : (r2.take (p1 + 1)).length = min (p1 + 1) r2.length := List.length_take _ _
        intro hnil
        rw [hnil] at this
        simp at this
        omega
      have htake : (a :: r2).take (p1 + 1 + 1) = a :: r2.take (p1 + 1) := by
        simp [List.take_succ_cons]
      rw [htake, lastIdNatOf_cons a htkne]
      obtain ⟨dl, hdlmem, hdlid⟩ := lastIdNatOf_mem htkne
      have hdlr2 : dl ∈ r2 := List.mem_of_mem_take hdlmem
      have haK : idNat a < lastIdNatOf (r2.take (p1 + 1)) := by
        rw [← hdlid]; exact hhead dl hdlr2
      rw [List.filter_cons]
      have hfalse : (decide (lastIdNatOf (r2.take (p1 + 1)) < idNat a)) = false := by
        simp only [decide_eq_false_iff_not]
        omega
      rw [hfalse]
      simp only [Bool.false_eq_true, if_false]
      rw [ih r2 hr2len htail]
      rfl

theorem remAfter_some (coll : List Doc) (k : Nat) :
    remAfter coll (some k) = coll.filter fun d => decide (k < idNat d) := rfl

theorem remAfter_next {coll : List Doc} {p : Nat} (b : Option Nat)
    (hS : coll.Pairwise (fun a b => idNat a < idNat b))
    (hp : 1 ≤ p) (hlen : p ≤ (remAfter coll b).length) :
    remAfter coll (some (lastIdNatOf ((remAfter coll b).take p)))
      = (remAfter coll b).drop p := by
  obtain ⟨p0, rfl⟩ : ∃ p0, p = p0 + 1 := ⟨p - 1, by omega⟩
  cases b with
  | none =>
    exact filter_lastId_drop p0 coll hlen hS
  | some k0 =>
    simp only [remAfter_some] at hlen ⊢
    have hrpair : (coll.filter fun d => decide (k0 < idNat d)).Pairwise
        (fun a b => idNat a < idNat b) :=
      List.Pairwise.sublist (List.filter_sublist coll) hS
    have htkne : ((coll.filter fun d => decide (k0 < idNat d)).take (p0 + 1)) ≠ [] := by
      have hlt : ((coll.filter fun d => decide (k0 < idNat d)).take (p0 + 1)).length
          = min (p0 + 1) (coll.filter fun d => decide (k0 < idNat d)).length :=
        List.length_take _ _
      intro hnil
      rw [hnil] at hlt
      simp at hlt
      omega
    obtain ⟨dl, hdlmem, hdlid⟩ := lastIdNatOf_mem htkne
    have hdlr : dl ∈ (coll.filter fun d => decide (k0 < idNat d)) :=
      List.mem_of_mem_take hdlmem
    have hk0K : k0 < lastIdNatOf
        ((coll.filter fun d => decide (k0 < idNat d)).take (p0 + 1)) := by
      rw [← hdlid]
      exact of_decide_eq_true (List.mem_filter.mp hdlr).2
    have hmain := filter_lastId_drop p0 (coll.filter fun d => decide (k0 < idNat d))
      hlen hrpair
    rw [← hmain, List.filter_filter]
    refine List.filter_congr fun d _ => ?_
    by_cases hKd : lastIdNatOf
        ((coll.filter fun d => decide (k0 < idNat d)).take (p0 + 1)) < idNat d
    · have hk0d : k0 < idNat d := by omega
      simp [hKd, hk0d]
    · simp [hKd]

theorem windowLastKey_eq {w : List Doc} (hne : w ≠ [])
    (h : ∀ d ∈ w, hasNatId d = true) :
    windowLastKey w = .vNat (lastIdNatOf w) := by
  rcases hg : w.getLast? with _ | dl
  · exact absurd (List.getLast?_eq_none_iff.mp hg) hne
  · obtain ⟨ys, hys⟩ := List.getLast?_eq_some_iff.mp hg
    have hmem : dl ∈ w := by rw [hys]; simp
    unfold windowLastKey lastIdNatOf
    rw [hg]
    show (Doc.get dl "_id").getD Value.vNull = Value.vNat (idNat dl)
    rw [hasNatId_get (h dl hmem)]
    rfl

theorem boundQuery_set (b : Option Nat) (v : Value) :
    Doc.set (boundQuery b) "_id" (.vGt v) = [("_id", .vGt v)] := by
  cases b with
  | none => rfl
  | some k => simp [boundQuery, gtQuery, Doc.set]

/-! ### Windows of a list -/

theorem chunksGo_nil (p : Nat) : ∀ fuel, chunksGo p fuel [] = [] := by
  intro fuel
  cases fuel <;> rfl

theorem chunksGo_congr {p : Nat} (hp : 1 ≤ p) :
    ∀ (f1 f2 : Nat) (l : List Doc), l.length ≤ f1 → l.length ≤ f2 →
      chunksGo p f1 l = chunksGo p f2 l := by
  intro f1
  induction f1 with
  | zero =>
    intro f2 l h1 _
    have : l = [] := List.length_eq_zero.mp (by omega)
    subst this
    rw [chunksGo_nil, chunksGo_nil]
  | succ f ih =>
    intro f2 l h1 h2
    cases l with
    | nil => rw [chunksGo_nil, chunksGo_nil]
    | cons a t =>
      obtain ⟨f2p, rfl⟩ : ∃ f2p, f2 = f2p + 1 := by
        cases f2 with
        | zero => simp at h2
        | succ n => exact ⟨n, rfl⟩
      show (a :: t).take p :: chunksGo p f ((a :: t).drop p)
        = (a :: t).take p :: chunksGo p f2p ((a :: t).drop p)
      have hd : ((a :: t).drop p).length ≤ f := by
        rw [List.length_drop]
        simp only [List.length_cons] at h1 ⊢
        omega
      have hd2 : ((a :: t).drop p).length ≤ f2p := by
        rw [List.length_drop]
        simp only [List.length_cons] at h2 ⊢
        omega
      rw [ih f2p _ hd hd2]

theorem chunksOf_step {p : Nat} (hp : 1 ≤ p) {l : List Doc} (hne : l ≠ []) :
    chunksOf p l = l.take p :: chunksOf p (l.drop p) := by
  cases l with
  | nil => exact absurd rfl hne
  | cons a t =>
    show chunksGo p ((a :: t).length) (a :: t) = _
    have hlen : (a :: t).length = t.length + 1 := rfl
    rw [hlen]
    show (a :: t).take p :: chunksGo p t.length ((a :: t).drop p)
      = (a :: t).take p :: chunksOf p ((a :: t).drop p)
    unfold chunksOf
    rw [chunksGo_congr hp t.length ((a :: t).drop p).length ((a :: t).drop p)
      (by rw [List.length_drop]; simp only [List.length_cons]; omega) (le_refl _)]

theorem chunksOf_flatten {p : Nat} (hp : 1 ≤ p) :
    ∀ (fuel : Nat) (l : List Doc), l.length ≤ fuel →
      (chunksOf p l).flatten = l := by
  intro fuel
  induction fuel with
  | zero =>
    intro l h
    have : l = [] := List.length_eq_zero.mp (by omega)
    subst this
    rfl
  | succ f ih =>
    intro l h
    cases l with
    | nil => rfl
    | cons a t =>
      rw [chunksOf_step hp (by simp), List.flatten_cons]
      have hd : ((a :: t).drop p).length ≤ f := by
        rw [List.length_drop]
        simp only [List.length_cons] at h ⊢
        omega
      rw [ih _ hd, List.take_append_drop]

theorem ceilDiv_step {n p : Nat} (hn : 1 ≤ n) (hp : 1 ≤ p) :
    (n - p + p - 1) / p + 1 = (n + p - 1) / p := by
  have h2 : n + p - 1 = (n - 1) + p := by omega
  rw [h2, Nat.add_div_right _ (by omega)]
  by_cases hle : n ≤ p
  · have h1 : n - p = 0 := by omega
    rw [h1]
    have h3 : (0 + p - 1) / p = 0 := Nat.div_eq_of_lt (by omega)
    rw [h3]
    have h4 : (n - 1) / p = 0 := Nat.div_eq_of_lt (by omega)
    rw [h4]
  · have h1 : n - p + p - 1 = n - 1 := by omega
    rw [h1]

theorem chunksOf_length {p : Nat} (hp : 1 ≤ p) :
    ∀ (fuel : Nat) (l : List Doc), l.length ≤ fuel →
      (chunksOf p l).length = (l.length + p - 1) / p := by
  intro fuel
  induction fuel with
  | zero =>
    intro l h
    have : l = [] := List.length_eq_zero.mp (by omega)
    subst this
    show (0 : Nat) = (0 + p - 1) / p
    exact (Nat.div_eq_of_lt (by omega)).symm
  | succ f ih =>
    intro l h
    cases l with
    | nil =>
      show (0 : Nat) = (0 + p - 1) / p
      exact (Nat.div_eq_of_lt (by omega)).symm
    | cons a t =>
      rw [chunksOf_step hp (by simp), List.length_cons]
      have hd : ((a :: t).drop p).length ≤ f := by
        rw [List.length_drop]
        simp only [List.length_cons] at h ⊢
        omega
      rw [ih _ hd, List.length_drop]
      exact ceilDiv_step (by simp) hp

/-! ### One unfolding step of the paginator -/

theorem pageGo_step_ok {ρ : Type} (store : Store)
    (handler : List Doc → Except String ρ) (p fuel : Nat) (q : Doc)
    (documents : List Doc) (hok : store q p = .ok documents) :
    pageGo store handler p (fuel + 1) q =
      if documents.length < 1 then ⟨[], 1, q, .terminal noDocsEnvelope⟩
      else if documents.length < p then
        match handler documents with
        | .ok r => ⟨[documents], 1, q, .handled r⟩
        | .error m => ⟨[documents], 1, q, .rejected m⟩
      else
        match handler documents with
        | .error m => ⟨[documents], 1, q, .rejected m⟩
        | .ok _ =>
          let t := pageGo store handler p fuel
            (Doc.set q "_id" (.vGt (windowLastKey documents)))
          ⟨documents :: t.windows, t.fetches + 1, t.finalQuery, t.outcome⟩ := by
  conv_lhs => rw [pageGo]
  rw [hok]

theorem pageGo_step_err {ρ : Type} (store : Store)
    (handler : List Doc → Except String ρ) (p fuel : Nat) (q : Doc)
    (msg : String) (herr : store q p = .error msg) :
    pageGo store handler p (fuel + 1) q = ⟨[], 1, q, .rejected msg⟩ := by
  conv_lhs => rw [pageGo]
  rw [herr]

theorem remAfter_subset {coll : List Doc} (b : Option Nat) {d : Doc}
    (hd : d ∈ remAfter coll b) : d ∈ coll := by
  cases b with
  | none => exact hd
  | some k => exact (List.filter_sublist coll).mem hd

theorem chunksOf_nil (p : Nat) : chunksOf p [] = [] := rfl

/-! ### The paginator on a static sorted collection -/

theorem pageGo_spec {ρ : Type} (h : List Doc → ρ) {coll : List Doc} {p : Nat}
    (hA : allNatIds coll = true) (hS : strictlySortedById coll = true)
    (hp : 1 ≤ p) :
    ∀ (fuel : Nat) (b : Option Nat), (remAfter coll b).length < fuel →
      (pageGo (pureStore coll) (fun w => Except.ok (h w)) p fuel (boundQuery b)).windows
          = chunksOf p (remAfter coll b) ∧
      (pageGo (pureStore coll) (fun w => Except.ok (h w)) p fuel (boundQuery b)).fetches
          = (remAfter coll b).length / p + 1 := by
  have hpair := strictlySorted_pairwise hS
  intro fuel
  induction fuel with
  | zero =>
    intro b hf
    exact absurd hf (by omega)
  | succ f ih =>
    intro b hf
    have hfetch : fetchSorted coll (boundQuery b) p = (remAfter coll b).take p :=
      fetchSorted_bound hA hpair hp b
    have hok : pureStore coll (boundQuery b) p
        = Except.ok ((remAfter coll b).take p) := by
      show Except.ok (fetchSorted coll (boundQuery b) p) = _
      rw [hfetch]
    rw [pageGo_step_ok (pureStore coll) (fun w => Except.ok (h w)) p f
      (boundQuery b) ((remAfter coll b).take p) hok]
    by_cases hnil : remAfter coll b = []
    · rw [hnil]
      refine ⟨?_, ?_⟩ <;> simp [chunksOf_nil]
    · have hpos : 0 < (remAfter coll b).length := List.length_pos.mpr hnil
      by_cases hlt : (remAfter coll b).length < p
      · have htake : (remAfter coll b).take p = remAfter coll b :=
          List.take_of_length_le (by omega)
        rw [htake]
        rw [if_neg (by omega), if_pos hlt]
        refine ⟨?_, ?_⟩
        · show [remAfter coll b] = chunksOf p (remAfter coll b)
          rw [chunksOf_step hp hnil]
          have hdrop : (remAfter coll b).drop p = [] :=
            List.drop_eq_nil_of_le (by omega)
          rw [hdrop, chunksOf_nil, htake]
        · show 1 = (remAfter coll b).length / p + 1
          rw [Nat.div_eq_of_lt hlt]
      · have hge : p ≤ (remAfter coll b).length := by omega
        have htklen : ((remAfter coll b).take p).length = p := by
          rw [List.length_take]
          omega
        rw [if_neg (by omega), if_neg (by omega)]
        have htkne : (remAfter coll b).take p ≠ [] := by
          intro hx
          rw [hx] at htklen
          simp at htklen
          omega
        have hwlk : windowLastKey ((remAfter coll b).take p)
            = .vNat (lastIdNatOf ((remAfter coll b).take p)) :=
          windowLastKey_eq htkne fun d hd =>
            allNatIds_mem hA (remAfter_subset b (List.mem_of_mem_take hd))
        have hset : Doc.set (boundQuery b) "_id"
              (.vGt (windowLastKey ((remAfter coll b).take p)))
            = boundQuery (some (lastIdNatOf ((remAfter coll b).take p))) := by
          rw [hwlk, boundQuery_set]
          rfl
        rw [hset]
        have hrem : remAfter coll (some (lastIdNatOf ((remAfter coll b).take p)))
            = (remAfter coll b).drop p := remAfter_next b hpair hp hge
        have hfsub : (remAfter coll
            (some (lastIdNatOf ((remAfter coll b).take p)))).length < f := by
          rw [hrem, List.length_drop]
          omega
        obtain ⟨ihw, ihf⟩ :=
          ih (some (lastIdNatOf ((remAfter coll b).take p))) hfsub
        refine ⟨?_, ?_⟩
        · show (remAfter coll b).take p :: (pageGo (pureStore coll)
              (fun w => Except.ok (h w)) p f (boundQuery
              (some (lastIdNatOf ((remAfter coll b).take p))))).windows
            = chunksOf p (remAfter coll b)
          rw [ihw, hrem, ← chunksOf_step hp hnil]
        · show (pageGo (pureStore coll) (fun w => Except.ok (h w)) p f
              (boundQuery (some (lastIdNatOf
              ((remAfter coll b).take p))))).fetches + 1
            = (remAfter coll b).length / p + 1
          rw [ihf, hrem, List.length_drop]
          have hdiv : (remAfter coll b).length / p
              = ((remAfter coll b).length - p) / p + 1 :=
            Nat.div_eq_sub_div (by omega) hge
          omega

/-! ### Further paginator facts: final query, window membership, empty window -/

theorem pageGo_finalQuery_gt {ρ : Type} (store : Store)
    (handler : List Doc → Except String ρ) (p : Nat) :
    ∀ (fuel : Nat) (q : Doc) (v : Value),
      Doc.get q "_id" = some (.vGt v) →
      ∃ w, Doc.get (pageGo store handler p fuel q).finalQuery "_id"
        = some (.vGt w) := by
  intro fuel
  induction fuel with
  | zero =>
    intro q v hq
    exact ⟨v, hq⟩
  | succ f ih =>
    intro q v hq
    cases hst : store q p with
    | error msg =>
      rw [pageGo_step_err store handler p f q msg hst]
      exact ⟨v, hq⟩
    | ok documents =>
      rw [pageGo_step_ok store handler p f q documents hst]
      by_cases h1 : documents.length < 1
      · rw [if_pos h1]
        exact ⟨v, hq⟩
      · rw [if_neg h1]
        by_cases h2 : documents.length < p
        · rw [if_pos h2]
          cases hh : handler documents with
          | ok r => exact ⟨v, hq⟩
          | error m => exact ⟨v, hq⟩
        · rw [if_neg h2]
          cases hh : handler documents with
          | error m => exact ⟨v, hq⟩
          | ok r =>
            exact ih (Doc.set q "_id" (.vGt (windowLastKey documents)))
              (windowLastKey documents) (Doc.get_set_self q "_id" _)

theorem pageGo_windows_mem {ρ : Type} {coll : List Doc}
    (handler : List Doc → Except String ρ) (p : Nat) :
    ∀ (fuel : Nat) (q : Doc) (w : List Doc),
      w ∈ (pageGo (pureStore coll) handler p fuel q).windows →
      ∀ d ∈ w, d ∈ coll := by
  intro fuel
  induction fuel with
  | zero =>
    intro q w hw
    simp [pageGo] at hw
  | succ f ih =>
    intro q w hw
    rw [pageGo_step_ok (pureStore coll) handler p f q (fetchSorted coll q p) rfl]
      at hw
    by_cases h1 : (fetchSorted coll q p).length < 1
    · rw [if_pos h1] at hw
      simp at hw
    · rw [if_neg h1] at hw
      by_cases h2 : (fetchSorted coll q p).length < p
      · rw [if_pos h2] at hw
        have hw2 : w = fetchSorted coll q p := by
          cases hh : handler (fetchSorted coll q p) with
          | ok r => rw [hh] at hw; simpa using hw
          | error m => rw [hh] at hw; simpa using hw
        intro d hd
        rw [hw2] at hd
        exact mem_fetchSorted hd
      · rw [if_neg h2] at hw
        cases hh : handler (fetchSorted coll q p) with
        | error m =>
          rw [hh] at hw
          have hw2 : w = fetchSorted coll q p := by simpa using hw
          intro d hd
          rw [hw2] at hd
          exact mem_fetchSorted hd
        | ok r =>
          rw [hh] at hw
          replace hw : w ∈ fetchSorted coll q p ::
              (pageGo (pureStore coll) handler p f
                (Doc.set q "_id" (.vGt (windowLastKey
                  (fetchSorted coll q p))))).windows := hw
          rcases List.mem_cons.mp hw with rfl | hw2
          · intro d hd
            exact mem_fetchSorted hd
          · exact ih _ w hw2

theorem pageGo_empty_window {ρ : Type} (store : Store)
    (handler : List Doc → Except String ρ) (p fuel : Nat) (q : Doc)
    (hfe : store q p = .ok []) (hf : 1 ≤ fuel) :
    pageGo store handler p fuel q = ⟨[], 1, q, .terminal noDocsEnvelope⟩ := by
  obtain ⟨f, rfl⟩ : ∃ f, fuel = f + 1 := ⟨fuel - 1, by omega⟩
  rw [pageGo_step_ok store handler p f q [] hfe]
  rfl

/-! ### Concrete sample documents for witnesses -/

/-- A sample document with numeric primary key i and one payload field. -/
def docN (i : Nat) : Doc :=
  [("_id", Value.vNat i), ("name", Value.vStr "doc")]

/-- A seven-document collection with keys 1..7 in ascending order. -/
def coll7 : List Doc :=
  [docN 1, docN 2, docN 3, docN 4, docN 5, docN 6, docN 7]

/-- A two-document collection with keys 1 and 2. -/
def coll2 : List Doc :=
  [docN 1, docN 2]

/-! ### Claim theorems -/

/-- C1: for every page size p at least 1 and every static collection of n
documents with unique, totally ordered (numeric, strictly ascending)
primary keys, workOnItPageByPage started on the whole collection invokes
the handler on exactly ceil(n/p) windows (zero windows when n = 0), the
concatenation of the windows in call order is exactly the collection in
ascending key order with each document appearing exactly once, and the
number of fetches is n / p + 1 - so for n = 7, p = 3 there are exactly 3
handler calls and 3 fetches: the partial third window short-circuits
without a fourth fetch. -/
theorem c1_pagination_windows {ρ : Type} (h : List Doc → ρ) (coll : List Doc)
    (p fuel : Nat) (hp : 1 ≤ p) (hA : allNatIds coll = true)
    (hS : strictlySortedById coll = true) (hfuel : coll.length < fuel) :
    ((workOnItPageByPage (pureStore coll) [] none p
        (fun w => Except.ok (h w)) fuel).windows).flatten = coll ∧
    (workOnItPageByPage (pureStore coll) [] none p
        (fun w => Except.ok (h w)) fuel).windows.length
      = (coll.length + p - 1) / p ∧
    (workOnItPageByPage (pureStore coll) [] none p
        (fun w => Except.ok (h w)) fuel).fetches = coll.length / p + 1 := by
  obtain ⟨hw, hf⟩ := pageGo_spec h hA hS hp fuel none hfuel
  rw [show boundQuery none = ([] : Doc) from rfl] at hw hf
  rw [show remAfter coll none = coll from rfl] at hw hf
  unfold workOnItPageByPage
  refine ⟨?_, ?_, ?_⟩
  · rw [hw]
    exact chunksOf_flatten hp coll.length coll (le_refl _)
  · rw [hw]
    exact chunksOf_length hp coll.length coll (le_refl _)
  · exact hf

/-- C1 witness: the seven-document collection with keys 1..7 at page size
3 and adequate fuel: the windows concatenate back to the collection, there
are ceil(7/3) = 3 windows, and 7/3 + 1 = 3 fetches (no fourth fetch). -/
theorem c1_pagination_windows_witness :
    ((workOnItPageByPage (pureStore coll7) [] none 3
        (fun w => Except.ok w.length) 8).windows).flatten = coll7 ∧
    (workOnItPageByPage (pureStore coll7) [] none 3
        (fun w => Except.ok w.length) 8).windows.length
      = (coll7.length + 3 - 1) / 3 ∧
    (workOnItPageByPage (pureStore coll7) [] none 3
        (fun w => Except.ok w.length) 8).fetches = coll7.length / 3 + 1 :=
  c1_pagination_windows (fun w => w.length) coll7 3 8 (by decide) (by decide)
    (by decide) (by decide)

/-- C2 counterexample: the terminal result the paginator returns on an
empty fetched window is the envelope with status false and text
"no documents found" - a status-false envelope, not the status-true
success envelope the claim requires. -/
theorem c2_counterexample :
    (workOnItPageByPage (pureStore ([] : List Doc)) [] none 3
        (fun _ => Except.ok Value.vNull) 1).outcome
      = PageOutcome.terminal noDocsEnvelope ∧
    noDocsEnvelope.status = false ∧
    noDocsEnvelope.text = some "no documents found" :=
  ⟨rfl, rfl, rfl⟩

/-- C2 amended: for every paginator call whose fetched window is empty,
the traversal does terminate without invoking the handler and after that
single fetch, but the terminal result is the status-false envelope with
text "no documents found", not a status-true success envelope (the legacy
utils.js variant resolves with no envelope at all in this case). -/
theorem c2_empty_window_amended {ρ : Type} (store : Store)
    (handler : List Doc → Except String ρ) (p fuel : Nat) (q : Doc)
    (hfe : store q p = .ok []) (hf : 1 ≤ fuel) :
    workOnItPageByPage store q none p handler fuel
      = ⟨[], 1, q, .terminal noDocsEnvelope⟩ :=
  pageGo_empty_window store handler p fuel q hfe hf

/-- C2 amended witness: the empty collection at page size 3. -/
theorem c2_empty_window_amended_witness :
    workOnItPageByPage (pureStore ([] : List Doc)) [] none 3
        (fun _ => Except.ok Value.vNull) 1
      = ⟨[], 1, [], .terminal noDocsEnvelope⟩ :=
  c2_empty_window_amended (pureStore ([] : List Doc))
    (fun _ => Except.ok Value.vNull) 3 1 [] rfl (by decide)

/-- C3: evaluating the bulkUpdate queue construction at the claimed input
(omit list ["_id"], payload with _id 5 and name "x"): the queued $set
document is indeed the name-only payload, but the queued filter compares
_id against new ObjectID(undefined) - a freshly generated ObjectID,
because the code reads update._id only after the omit removed _id - which
is not the primary key 5 the claim requires. -/
theorem c3_bulkUpdate_filter_bug :
    bulkUpdateQueue [[("_id", Value.vNat 5), ("name", Value.vStr "x")]]
        (some ["_id"])
      = [{ filterId := Value.vObjIdFresh,
           setDoc := [("name", Value.vStr "x")] }] ∧
    Value.vObjIdFresh ≠ Value.vNat 5 ∧
    Value.vObjIdFresh ≠ Value.vObjIdOf (Value.vNat 5) :=
  ⟨rfl, by decide, by decide⟩

/-- C4: with omit list ["a", "b"] the code calls lodash omit with
omits.toString() = "a,b", a single path naming the literal key "a,b", so
nothing is removed: the fields a and b survive into the queued $set
document even though both are in the omit set, refuting the omit-list
property for omit sets of more than one field. -/
theorem c4_bulkUpdate_omit_bug :
    bulkUpdateQueue
        [[("a", Value.vNat 1), ("b", Value.vNat 2), ("_id", Value.vNat 7)]]
        (some ["a", "b"])
      = [{ filterId := Value.vObjIdOf (Value.vNat 7),
           setDoc := [("a", Value.vNat 1), ("b", Value.vNat 2),
                      ("_id", Value.vNat 7)] }] ∧
    Doc.get [("a", Value.vNat 1), ("b", Value.vNat 2), ("_id", Value.vNat 7)]
        "a" = some (Value.vNat 1) :=
  ⟨rfl, rfl⟩

/-- C5: processABatchOfDocuments performs exactly one fetch, never touches
the caller's query (no greater-than predicate is injected and no second
fetch occurs), resolves with the sentinel false when the window is empty,
and returns the handler's result verbatim otherwise (with the catch
envelope only when the driver itself fails). -/
theorem c5_single_pass_batch {ρ : Type} (store : Store) (q : Doc)
    (batchSize : Nat) (handler : List Doc → ρ) :
    (processABatchOfDocuments store q batchSize handler).fetches = 1 ∧
    (processABatchOfDocuments store q batchSize handler).finalQuery = q ∧
    (processABatchOfDocuments store q batchSize handler).outcome
      = match store q batchSize with
        | .error m => .caught { status := false, resp := none, text := some m }
        | .ok [] => .sentinelFalse
        | .ok (d :: ds) => .handled (handler (d :: ds)) := by
  unfold processABatchOfDocuments
  cases hst : store q batchSize with
  | error m => exact ⟨rfl, rfl, rfl⟩
  | ok documents =>
    cases documents with
    | nil => exact ⟨rfl, rfl, rfl⟩
    | cons d ds => exact ⟨rfl, rfl, rfl⟩

/-- Envelope invariant of the shared try/catch success and failure
envelopes: failure carries text and no resp; success carries resp. -/
theorem stdEnvelope_invariant (d : DriverOutcome) :
    ((stdEnvelope d).status = false →
      (stdEnvelope d).text.isSome = true ∧ (stdEnvelope d).resp = none) ∧
    ((stdEnvelope d).status = true → (stdEnvelope d).resp = none →
      (stdEnvelope d).text.isSome = true) := by
  cases d with
  | ok v =>
    refine ⟨fun hfalse => ?_, fun _ hresp => ?_⟩
    · simp [stdEnvelope] at hfalse
    · simp [stdEnvelope] at hresp
  | fail m => exact ⟨fun _ => ⟨rfl, rfl⟩, fun _ _ => rfl⟩

/-- C6 counterexample: the envelope returned by a successful initialize is
the bare status-true object with neither resp nor text, so status is true,
resp is absent and text is empty - refuting the claimed invariant exactly
at the case the claim singles out. -/
theorem c6_counterexample :
    envelopeOf (.initConn (.ok Value.vNull))
      = { status := true, resp := none, text := none } ∧
    (envelopeOf (.initConn (.ok Value.vNull))).status = true ∧
    (envelopeOf (.initConn (.ok Value.vNull))).resp = none ∧
    (envelopeOf (.initConn (.ok Value.vNull))).text = none :=
  ⟨rfl, rfl, rfl, rfl⟩

/-- C6 amended: for every envelope-producing return site of the
DBConnection class other than the successful initialize (which returns the
bare status-true object with neither resp nor text): status false implies
text is populated and resp absent, and status true with resp absent
implies text is populated. -/
theorem c6_envelope_invariant_amended (c : OpCall) (hc : isInitOk c = false) :
    ((envelopeOf c).status = false →
      (envelopeOf c).text.isSome = true ∧ (envelopeOf c).resp = none) ∧
    ((envelopeOf c).status = true → (envelopeOf c).resp = none →
      (envelopeOf c).text.isSome = true) := by
  cases c with
  | initConn d =>
    cases d with
    | ok v => simp [isInitOk] at hc
    | fail m => exact ⟨fun _ => ⟨rfl, rfl⟩, fun _ _ => rfl⟩
  | insertIntoDb docs d =>
    by_cases hlen : docs.length < 1
    · refine ⟨fun hfalse => ?_, fun _ _ => ?_⟩
      · simp [envelopeOf, hlen] at hfalse
      · show (envelopeOf (.insertIntoDb docs d)).text.isSome = true
        simp [envelopeOf, hlen]
    · have hstd : envelopeOf (.insertIntoDb docs d) = stdEnvelope d := by
        simp [envelopeOf, hlen]
      rw [hstd]
      exact stdEnvelope_invariant d
  | updateDocument d => exact stdEnvelope_invariant d
  | upsertDocument d => exact stdEnvelope_invariant d
  | findOneDocumentBasedOnQuery d => exact stdEnvelope_invariant d
  | findDocumentsBasedOnQuery d => exact stdEnvelope_invariant d
  | countDocumentsByQuery d => exact stdEnvelope_invariant d
  | workOnItPageByPageEmpty => exact ⟨fun _ => ⟨rfl, rfl⟩, fun _ _ => rfl⟩
  | bulkCreate docs d =>
    by_cases hlen : docs.length = 0
    · refine ⟨fun hfalse => ?_, fun _ _ => ?_⟩
      · simp [envelopeOf, hlen] at hfalse
      · show (envelopeOf (.bulkCreate docs d)).text.isSome = true
        simp [envelopeOf, hlen]
    · have hstd : envelopeOf (.bulkCreate docs d) = stdEnvelope d := by
        simp [envelopeOf, hlen]
      rw [hstd]
      exact stdEnvelope_invariant d
  | bulkUpdate us d =>
    by_cases hlen : us.length = 0
    · refine ⟨fun hfalse => ?_, fun _ _ => ?_⟩
      · simp [envelopeOf, hlen] at hfalse
      · show (envelopeOf (.bulkUpdate us d)).text.isSome = true
        simp [envelopeOf, hlen]
    · have hstd : envelopeOf (.bulkUpdate us d) = stdEnvelope d := by
        simp [envelopeOf, hlen]
      rw [hstd]
      exact stdEnvelope_invariant d
  | insertOne doc d =>
    cases doc with
    | none => exact ⟨fun _ => ⟨rfl, rfl⟩, fun _ _ => rfl⟩
    | some dd => exact stdEnvelope_invariant d
  | dropCollection d => exact stdEnvelope_invariant d
  | findDistinctDocuments d => exact stdEnvelope_invariant d
  | processABatchOfDocumentsErr m => exact ⟨fun _ => ⟨rfl, rfl⟩, fun _ _ => rfl⟩
  | bulkUpdateByQuery d => exact stdEnvelope_invariant d

/-- C6 amended witness: the paginator's empty-window envelope. -/
theorem c6_envelope_invariant_amended_witness :
    ((envelopeOf .workOnItPageByPageEmpty).status = false →
      (envelopeOf .workOnItPageByPageEmpty).text.isSome = true ∧
      (envelopeOf .workOnItPageByPageEmpty).resp = none) ∧
    ((envelopeOf .workOnItPageByPageEmpty).status = true →
      (envelopeOf .workOnItPageByPageEmpty).resp = none →
      (envelopeOf .workOnItPageByPageEmpty).text.isSome = true) :=
  c6_envelope_invariant_amended .workOnItPageByPageEmpty rfl

/-- C7 counterexample: a fetch error inside workOnItPageByPage is not
returned as an envelope: with a store whose fetch rejects with
"network fault", the call chain rejects with that message (the awaited
fetch has no try/catch around it) and the handler is never invoked. -/
theorem c7_counterexample :
    workOnItPageByPage (fun _ _ => Except.error "network fault") [] none 3
        (fun _ => Except.ok Value.vNull) 5
      = ⟨[], 1, [], .rejected "network fault"⟩ :=
  pageGo_step_err _ _ 3 4 [] "network fault" rfl

/-- C7 amended: driver failures inside the try/catch-wrapped DBConnection
operations are returned as status-false envelopes, and the legacy utils.js
functions rethrow them as rejections after closing the handle; but
workOnItPageByPage's fetch is not wrapped, so a fetch error rejects the
paginator's promise with the driver message - it is thrown to the caller,
not returned, and the handler is not invoked. -/
theorem c7_failure_propagation_amended {ρ : Type} (store : Store)
    (handler : List Doc → Except String ρ) (p fuel : Nat) (q : Doc)
    (msg : String) (herr : store q p = .error msg) (hf : 1 ≤ fuel) :
    workOnItPageByPage store q none p handler fuel
      = ⟨[], 1, q, .rejected msg⟩ ∧
    (∀ m d docs, envelopeOf (.insertIntoDb (d :: docs) (.fail m))
      = { status := false, resp := none, text := some m }) ∧
    (∀ m, legacyCatchErrors (.error m) = .rejected m) := by
  refine ⟨?_, fun m d docs => rfl, fun m => rfl⟩
  obtain ⟨f, rfl⟩ : ∃ f, fuel = f + 1 := ⟨fuel - 1, by omega⟩
  exact pageGo_step_err store handler p f q msg herr

/-- C7 amended witness: a store whose fetch rejects with "boom". -/
theorem c7_failure_propagation_amended_witness :
    workOnItPageByPage (fun _ _ => Except.error "boom") [] none 2
        (fun _ => Except.ok Value.vNull) 3
      = ⟨[], 1, [], .rejected "boom"⟩ ∧
    (∀ m d docs, envelopeOf (.insertIntoDb (d :: docs) (.fail m))
      = { status := false, resp := none, text := some m }) ∧
    (∀ m, legacyCatchErrors (.error m) = .rejected m) :=
  c7_failure_propagation_amended (fun _ _ => Except.error "boom")
    (fun _ => Except.ok Value.vNull) 2 3 [] "boom" rfl (by decide)

/-- C8 counterexample: the paginator writes the greater-than predicate
into the caller's original query object, not a copy: paginating two
documents with page size 1 from the empty query leaves the caller's query
object holding the predicate past key 2 - it is no longer the original
empty object. -/
theorem c8_counterexample :
    (workOnItPageByPage (pureStore [[("_id", Value.vNat 1)],
        [("_id", Value.vNat 2)]]) [] none 1
        (fun _ => Except.ok Value.vNull) 3).finalQuery
      = [("_id", Value.vGt (Value.vNat 2))] ∧
    [("_id", Value.vGt (Value.vNat 2))] ≠ ([] : Doc) :=
  ⟨rfl, by decide⟩

/-- C8 amended: the paginator injects the greater-than predicate into the
caller's original query object in place (not into a copy): whenever the
first fetched window is full and its handler succeeds, the caller's query
object after the call chain maps _id to a greater-than predicate. -/
theorem c8_query_mutation_amended {ρ : Type} (store : Store)
    (handler : List Doc → Except String ρ) (p fuel : Nat) (q : Doc)
    (documents : List Doc) (r : ρ) (hok : store q p = .ok documents)
    (h1 : ¬documents.length < 1) (h2 : ¬documents.length < p)
    (hh : handler documents = .ok r) :
    ∃ w, Doc.get (workOnItPageByPage store q none p handler
        (fuel + 1)).finalQuery "_id" = some (.vGt w) := by
  show ∃ w, Doc.get (pageGo store handler p (fuel + 1) q).finalQuery "_id" = _
  rw [pageGo_step_ok store handler p fuel q documents hok, if_neg h1,
    if_neg h2, hh]
  exact pageGo_finalQuery_gt store handler p fuel _ (windowLastKey documents)
    (Doc.get_set_self q "_id" _)

/-- C8 amended witness: two documents, page size 1, empty initial query. -/
theorem c8_query_mutation_amended_witness :
    ∃ w, Doc.get (workOnItPageByPage (pureStore coll2) [] none 1
        (fun _ => Except.ok Value.vNull) 3).finalQuery "_id"
      = some (.vGt w) :=
  c8_query_mutation_amended (pureStore coll2) (fun _ => Except.ok Value.vNull)
    1 2 [] [docN 1] Value.vNull rfl (by decide) (by decide) rfl

/-- C9 counterexample: the legacy bulkCreate on an explicitly empty
operations list performs no store interaction (no batch, no round trip)
but resolves with undefined (vNull) - a bare resolved promise with no
envelope and no "nothing to do" marker. -/
theorem c9_counterexample :
    bulkCreateLegacy (some []) (.error "driver must not be reached")
      = (false, 0, Except.ok Value.vNull) := rfl

/-- C9 amended: on empty or absent input every bulk write engine performs
no store interaction (no batch initialized, zero execute round trips); the
DBConnection variants return status-true envelopes with the markers
"No documents to insert" and "No updates found", while the legacy utils.js
variants resolve with undefined and carry no marker envelope. -/
theorem c9_empty_bulk_amended (driver : Except String Value)
    (omits : Option (List String)) :
    bulkCreateDb none driver
      = (false, 0,
          { status := true, resp := none, text := some "No documents to insert" }) ∧
    bulkCreateDb (some []) driver
      = (false, 0,
          { status := true, resp := none, text := some "No documents to insert" }) ∧
    bulkUpdateDb none omits driver
      = (false, 0, [],
          { status := true, resp := none, text := some "No updates found" }) ∧
    bulkUpdateDb (some []) omits driver
      = (false, 0, [],
          { status := true, resp := none, text := some "No updates found" }) ∧
    bulkCreateLegacy none driver = (false, 0, .ok .vNull) ∧
    bulkCreateLegacy (some []) driver = (false, 0, .ok .vNull) ∧
    bulkUpdateLegacy none omits driver = (false, 0, [], .ok .vNull) ∧
    bulkUpdateLegacy (some []) omits driver = (false, 0, [], .ok .vNull) :=
  ⟨rfl, rfl, rfl, rfl, rfl, rfl, rfl, rfl⟩

/-- C10: the projection argument of workOnItPageByPage has no effect on
the fetch: line 705 reassigns it and the commented-out .project call never
applies it, so two calls differing only in the projection produce
identical traces, and every document delivered to the handler is a
document of the collection verbatim, with all stored fields intact. -/
theorem c10_projection_ignored {ρ : Type} (store : Store) (q : Doc)
    (proj1 proj2 : Option Doc) (pageSize fuel : Nat)
    (handler : List Doc → Except String ρ) (coll : List Doc) :
    workOnItPageByPage store q proj1 pageSize handler fuel
      = workOnItPageByPage store q proj2 pageSize handler fuel ∧
    (((workOnItPageByPage (pureStore coll) q proj1 pageSize handler
        fuel).windows).flatten).all (fun d => decide (d ∈ coll)) = true := by
  refine ⟨rfl, ?_⟩
  rw [List.all_eq_true]
  intro d hd
  obtain ⟨w, hw, hdw⟩ := List.mem_flatten.mp hd
  exact decide_eq_true (pageGo_windows_mem handler pageSize fuel q w hw d hdw)
